import Mathlib

/-!
Formal model of the biblioteca loan/inventory engine.

The definitions below are a shallow embedding of the TypeScript services
in `src/services/loanService.ts` and `src/services/bookService.ts`.
Firestore documents become Lean structures; the combined store becomes an
explicit `State`; a Firestore transaction that throws becomes an `Except`
value whose error branch leaves the state untouched.  Timestamps are
modelled as integers (epoch milliseconds); `serverTimestamp()` becomes an
explicit `now` parameter.  The external CPF checksum (`@/lib/validation`,
not part of the sources) is an abstract boolean predicate parameter.
-/

namespace Biblioteca

/-- Loan status field: the string union `'active' | 'returned'` of the source. -/
inductive LoanStatus where
  | active : LoanStatus
  | returned : LoanStatus
deriving DecidableEq, Repr

/-- Book document of the `books` collection (interface `Book` in `types`).
Optional TypeScript fields become `Option`; `quantity` and
`availableQuantity` are numbers in the source, modelled as `Int` so that
negative values remain expressible. -/
structure Book where
  key : String
  title : String
  author_name : List String
  isbn : List String
  first_publish_year : Option Int
  cover_i : Option Int
  olid : Option String
  cover_url_small : Option String
  cover_url_medium : Option String
  cover_url_large : Option String
  description : Option String
  quantity : Option Int
  availableQuantity : Option Int
  lastAccessedAt : Option Int
deriving DecidableEq, Repr

/-- Loan document of the `loans` collection (interface `Loan` in `types`). -/
structure LoanRec where
  id : String
  userId : String
  userDisplayName : Option String
  userEmail : Option String
  borrowerCPF : String
  bookKey : String
  bookTitle : String
  loanDate : Int
  dueDate : Int
  returnDate : Option Int
  status : LoanStatus
  createdAt : Int
deriving DecidableEq, Repr

/-- Input of `createLoan` (interface `CreateLoanInput` in `loanService.ts`).
The `dueDate` is `Option` so that the runtime check `!loanDetails.dueDate`
of the source stays expressible. -/
structure CreateLoanInput where
  userId : String
  userDisplayName : Option String
  userEmail : Option String
  borrowerCPF : String
  bookKey : String
  bookTitle : String
  dueDate : Option Int
deriving DecidableEq, Repr

/-- Closed taxonomy of the errors thrown by the loan service.  Each
constructor corresponds to one `throw new Error(...)` site of the source. -/
inductive LoanError where
  | invalidCPF : LoanError
  | noBookSelected : LoanError
  | noDueDate : LoanError
  | dueDateInPast : LoanError
  | bookNotFound : LoanError
  | unavailable : LoanError
  | loanIdRequired : LoanError
  | loanNotFound : LoanError
deriving DecidableEq, Repr

/-- The validation errors: those thrown by `validateLoanInput` (or the
`loanId` guard), i.e. before any storage access. -/
def LoanError.isValidation : LoanError → Bool
  | .invalidCPF => true
  | .noBookSelected => true
  | .noDueDate => true
  | .dueDateInPast => true
  | .loanIdRequired => true
  | _ => false

/-- Combined (Book, Loan) store: the `books` and `loans` collections. -/
structure State where
  books : List Book
  loans : List LoanRec
deriving DecidableEq, Repr

/-- Look up a book document by its key (Firestore `doc(db, 'books', key)`). -/
def findBook (st : State) (key : String) : Option Book :=
  st.books.find? (fun b => b.key = key)

/-- Look up a loan document by its id (Firestore `doc(db, 'loans', id)`). -/
def findLoan (st : State) (id : String) : Option LoanRec :=
  st.loans.find? (fun l => l.id = id)

/-- Embedding of `validateLoanInput` (`loanService.ts`, lines 49-62): checks
CPF, book selection and due date, in source order; returns the first error
or `none` when the input is valid.  `cpfValid` abstracts `validateCPF`. -/
def validateLoanInput (cpfValid : String → Bool) (now : Int)
    (loanDetails : CreateLoanInput) : Option LoanError :=
  if loanDetails.borrowerCPF = "" ∨ ¬ cpfValid loanDetails.borrowerCPF then
    some .invalidCPF
  else if loanDetails.bookKey = "" then
    some .noBookSelected
  else
    match loanDetails.dueDate with
    | none => some .noDueDate
    | some d => if d < now then some .dueDateInPast else none

/-- The loan document `createLoan` writes: active status, loan and
creation timestamps taken from the transaction time, due date from the
validated input (validation guarantees it is present). -/
def newLoanOf (loanDetails : CreateLoanInput) (now : Int)
    (newId : String) : LoanRec :=
  { id := newId
    userId := loanDetails.userId
    userDisplayName := loanDetails.userDisplayName
    userEmail := loanDetails.userEmail
    borrowerCPF := loanDetails.borrowerCPF
    bookKey := loanDetails.bookKey
    bookTitle := loanDetails.bookTitle
    dueDate := loanDetails.dueDate.getD now
    loanDate := now
    returnDate := none
    status := .active
    createdAt := now }

/-- Embedding of `createLoan` (`loanService.ts`, lines 71-120).  Validates
the input, then runs the transaction: read the book, fail `bookNotFound`
if absent, fail `unavailable` when `availableQuantity` is undefined or
non-positive, otherwise decrement `availableQuantity` by one and insert a
new active loan.  A thrown error aborts the transaction, so the error
branch carries no state.  `newId` is the fresh id Firestore would mint for
`doc(collection(db, 'loans'))`. -/
def createLoan (cpfValid : String → Bool) (now : Int) (st : State)
    (loanDetails : CreateLoanInput) (newId : String) :
    Except LoanError (State × String) :=
  match validateLoanInput cpfValid now loanDetails with
  | some e => .error e
  | none =>
    match findBook st loanDetails.bookKey with
    | none => .error .bookNotFound
    | some bookData =>
      match bookData.availableQuantity with
      | none => .error .unavailable
      | some avail =>
        if avail ≤ 0 then .error .unavailable
        else
          let newLoan := newLoanOf loanDetails now newId
          .ok ({ books := st.books.map (fun b =>
                   if b.key = loanDetails.bookKey then
                     { b with availableQuantity := some (avail - 1) }
                   else b)
                 loans := newLoan :: st.loans }, newId)

/-- Embedding of `returnBook` (`loanService.ts`, lines 164-205).  Guards the
empty id, reads the loan, treats an already returned loan as a no-op
success, otherwise reads the book, writes back
`min(availableQuantity ?? 0 + 1, quantity ?? newAvailable)` and marks the
loan returned with `returnDate := now`. -/
def returnBook (now : Int) (st : State) (loanId : String) :
    Except LoanError State :=
  if loanId = "" then .error .loanIdRequired
  else
    match findLoan st loanId with
    | none => .error .loanNotFound
    | some loanData =>
      if loanData.status = .returned then .ok st
      else
        match findBook st loanData.bookKey with
        | none => .error .bookNotFound
        | some bookData =>
          let newAvailableQuantity : Int := bookData.availableQuantity.getD 0 + 1
          let clamped : Int := min newAvailableQuantity (bookData.quantity.getD newAvailableQuantity)
          .ok { books := st.books.map (fun b =>
                  if b.key = loanData.bookKey then
                    { b with availableQuantity := some clamped }
                  else b)
                loans := st.loans.map (fun l =>
                  if l.id = loanId then
                    { l with status := .returned, returnDate := some now }
                  else l) }

/-! ### Ordered queries

Firestore `orderBy` clauses are modelled by an insertion sort with an
explicit boolean total preorder. -/

/-- Insert `x` in front of the first element that does not precede it. -/
def insertLe {α : Type} (le : α → α → Bool) (x : α) : List α → List α
  | [] => [x]
  | y :: ys => if le x y then x :: y :: ys else y :: insertLe le x ys

/-- Insertion sort by the boolean preorder `le`. -/
def sortByLe {α : Type} (le : α → α → Bool) : List α → List α
  | [] => []
  | x :: xs => insertLe le x (sortByLe le xs)

/-- Descending order on `loanDate` (the `orderBy('loanDate', 'desc')`
clause): `l1` may precede `l2` when its loan date is not smaller. -/
def loanDateDescLe (l1 l2 : LoanRec) : Bool :=
  decide (l2.loanDate ≤ l1.loanDate)

/-- Rank used by `orderBy('status', 'asc')`: the string `'active'` sorts
before `'returned'`. -/
def statusRank : LoanStatus → Nat
  | .active => 0
  | .returned => 1

/-- Order of `getAllLoans`: status ascending, then loan date descending. -/
def statusThenDateLe (l1 l2 : LoanRec) : Bool :=
  decide (statusRank l1.status < statusRank l2.status) ||
    (decide (statusRank l1.status = statusRank l2.status) &&
      decide (l2.loanDate ≤ l1.loanDate))

/-- Embedding of `getUserLoans` (`loanService.ts`, lines 128-156): loans of
the given user, ordered by loan date descending only. -/
def getUserLoans (st : State) (userId : String) : List LoanRec :=
  if userId = "" then []
  else sortByLe loanDateDescLe (st.loans.filter (fun l => l.userId = userId))

/-- Embedding of `getAllLoans` (`loanService.ts`, lines 213-240): all loans,
ordered by status ascending then loan date descending. -/
def getAllLoans (st : State) : List LoanRec :=
  sortByLe statusThenDateLe st.loans

/-! ### Catalog search -/

/-- Codepoint-lexicographic order on character lists, the order Firestore
uses for string fields. -/
def charListLe : List Char → List Char → Bool
  | [], _ => true
  | _ :: _, [] => false
  | a :: as, b :: bs =>
    if a.val < b.val then true
    else if b.val < a.val then false
    else charListLe as bs

/-- Codepoint-lexicographic order on strings. -/
def strLe (a b : String) : Bool :=
  charListLe a.data b.data

/-- Boolean form of `String.prototype.startsWith`. -/
def strStarts (s pre : String) : Bool :=
  pre.data.isPrefixOf s.data

/-- Boolean contiguous-substring test on character lists. -/
def isInfixB (needle : List Char) : List Char → Bool
  | [] => needle.isEmpty
  | c :: rest => needle.isPrefixOf (c :: rest) || isInfixB needle rest

/-- Boolean form of `String.prototype.includes`. -/
def strIncludes (s sub : String) : Bool :=
  isInfixB sub.data s.data

/-- The `where('availableQuantity', '>', 0)` constraint: documents with the
field missing are excluded by Firestore. -/
def availOk (b : Book) : Bool :=
  match b.availableQuantity with
  | some a => decide (0 < a)
  | none => false

/-- Order of `orderBy('title')` with the implicit document-id tiebreak. -/
def titleThenKeyLe (b1 b2 : Book) : Bool :=
  if b1.title = b2.title then strLe b1.key b2.key else strLe b1.title b2.title

/-- Document-id order, the default order of a query without `orderBy`. -/
def keyLe (b1 b2 : Book) : Bool :=
  strLe b1.key b2.key

/-- The range constraint on the `title` field: `startAt(searchText)` and
`endAt` of the text extended with the high codepoint 0xf8ff. -/
def titleInRange (searchText : String) (b : Book) : Bool :=
  strLe searchText b.title && strLe b.title (searchText.push (Char.ofNat 0xf8ff))

/-- Character-wise lower-casing, the `toLowerCase()` calls of the source
(ASCII letters; sufficient for the catalog model). -/
def jsToLower (s : String) : String :=
  String.mk (s.data.map Char.toLower)

/-- Whitespace trim on both ends, the `searchText.trim()` call of the
source. -/
def jsTrim (s : String) : String :=
  String.mk (((s.data.dropWhile Char.isWhitespace).reverse.dropWhile
    Char.isWhitespace).reverse)

/-- Embedding of `searchLibraryBooks` (`bookService.ts`, lines 281-356).
Empty or whitespace-only text returns `[]` before any store access.
Otherwise two queries run: a case-sensitive title range query (ordered by
title, limited, optionally filtered by availability) refined client-side
by a case-insensitive `startsWith` check, and an exact
`array-contains` ISBN query (limited, optionally filtered).  Results are
merged into a `Map` keyed by document id, title matches first in
insertion order, and truncated to the limit. -/
def searchLibraryBooks (store : List Book) (searchText : String)
    (searchLimit : Nat) (filterByAvailability : Bool) : List Book :=
  if jsTrim searchText = "" then []
  else
    let searchTextLower := jsToLower searchText
    let titleServer :=
      (sortByLe titleThenKeyLe (store.filter (fun b =>
        titleInRange searchText b &&
          (!filterByAvailability || availOk b)))).take searchLimit
    let titleClient := titleServer.filter (fun b =>
      strStarts (jsToLower b.title) searchTextLower)
    let isbnServer :=
      (sortByLe keyLe (store.filter (fun b =>
        b.isbn.contains searchText &&
          (!filterByAvailability || availOk b)))).take searchLimit
    let merged := titleClient ++
      isbnServer.filter (fun b => !(titleClient.any (fun c => c.key = b.key)))
    merged.take searchLimit

/-! ### Admin book registration

Embedding of `adminAddBook` (`bookService.ts`, lines 87-155).  The
OpenLibrary lookup result is passed in as data (`fetchBookDetailsFromAPI`
is an external HTTP call); `null` becomes `none`. -/

/-- Author entry of the OpenLibrary details payload. -/
structure APIAuthor where
  name : String
deriving DecidableEq, Repr

/-- Identifier lists of the OpenLibrary details payload. -/
structure APIIdentifiers where
  isbn_10 : Option (List String)
  isbn_13 : Option (List String)
  openlibrary : Option (List String)
deriving DecidableEq, Repr

/-- Cover URLs of the OpenLibrary details payload. -/
structure APICover where
  small : Option String
  medium : Option String
  large : Option String
deriving DecidableEq, Repr

/-- The `notes` field: either a bare string or an object with a `value`. -/
inductive APINotes where
  | str : String → APINotes
  | obj : String → APINotes
deriving DecidableEq, Repr

/-- The fields of `OpenLibraryBookDetails` that `adminAddBook` reads. -/
structure OpenLibraryBookDetails where
  key : Option String
  title : String
  subtitle : Option String
  authors : Option (List APIAuthor)
  identifiers : Option APIIdentifiers
  publish_date : Option String
  notes : Option APINotes
  cover : Option APICover
deriving DecidableEq, Repr

/-- Reads a four-digit decimal number at the head of the list, if any. -/
def fourDigitAt : List Char → Option Int
  | a :: b :: c :: d :: _ =>
    if a.isDigit && b.isDigit && c.isDigit && d.isDigit then
      some ((a.val.toNat - 48) * 1000 + (b.val.toNat - 48) * 100 +
        (c.val.toNat - 48) * 10 + (d.val.toNat - 48) : Int)
    else none
  | _ => none

/-- First match of the regular expression for four digits in a row, as in
the `publish_date.match` call of the source. -/
def findYear : List Char → Option Int
  | [] => none
  | c :: rest =>
    match fourDigitAt (c :: rest) with
    | some y => some y
    | none => findYear rest

/-- JavaScript `a || b` on optional strings: the empty string is falsy. -/
def jsOrStr (a b : Option String) : Option String :=
  match a with
  | some s => if s = "" then b else some s
  | none => b

/-- The expression `typeof notes === 'string' ? notes : notes?.value`. -/
def notesValue : Option APINotes → Option String
  | some (.str s) => some s
  | some (.obj v) => some v
  | none => none

/-- The `dataToSave` document of `adminAddBook`: fields written on every
call are plain, fields added only when defined are `Option`. -/
structure BookSave where
  key : String
  title : String
  author_name : List String
  isbn : List String
  quantity : Int
  availableQuantity : Int
  lastAccessedAt : Int
  first_publish_year : Option Int
  cover_url_small : Option String
  cover_url_medium : Option String
  cover_url_large : Option String
  olid : Option String
  description : Option String
deriving DecidableEq, Repr

/-- One field of a `setDoc(..., { merge: true })` write: a value present in
the payload overwrites, an absent one keeps the stored value. -/
def mergeField {α : Type} (new old : Option α) : Option α :=
  match new with
  | some v => some v
  | none => old

/-- Merge `dataToSave` into an existing book document. -/
def mergeSave (b : Book) (s : BookSave) : Book :=
  { b with
    key := s.key
    title := s.title
    author_name := s.author_name
    isbn := s.isbn
    quantity := some s.quantity
    availableQuantity := some s.availableQuantity
    lastAccessedAt := some s.lastAccessedAt
    first_publish_year := mergeField s.first_publish_year b.first_publish_year
    cover_url_small := mergeField s.cover_url_small b.cover_url_small
    cover_url_medium := mergeField s.cover_url_medium b.cover_url_medium
    cover_url_large := mergeField s.cover_url_large b.cover_url_large
    olid := mergeField s.olid b.olid
    description := mergeField s.description b.description }

/-- Create a fresh book document from `dataToSave` (the `setDoc` call with
`merge: true` on a non-existing document). -/
def bookOfSave (s : BookSave) : Book :=
  { key := s.key
    title := s.title
    author_name := s.author_name
    isbn := s.isbn
    first_publish_year := s.first_publish_year
    cover_i := none
    olid := s.olid
    cover_url_small := s.cover_url_small
    cover_url_medium := s.cover_url_medium
    cover_url_large := s.cover_url_large
    description := s.description
    quantity := some s.quantity
    availableQuantity := some s.availableQuantity
    lastAccessedAt := some s.lastAccessedAt }

/-- Split a character list at every occurrence of the separator. -/
def splitCharAux (sep : Char) : List Char → List Char → List (List Char)
  | [], acc => [acc.reverse]
  | c :: rest, acc =>
    if c = sep then acc.reverse :: splitCharAux sep rest []
    else splitCharAux sep rest (c :: acc)

/-- JavaScript `key.split('/')`: every string splits into at least one
piece, and a trailing separator yields a final empty piece. -/
def splitSlash (s : String) : List String :=
  (splitCharAux '/' s.data []).map String.mk

/-- The `dataToSave` block of `adminAddBook` (`bookService.ts`, lines
108-138): authors mapped to names, publish year extracted from the date
string, ISBN list from the identifiers with the query ISBN as fallback,
olid from the key or the identifiers, description from subtitle or notes,
and both counters set to the supplied quantity. -/
def buildDataToSave (now : Int) (isbn0 : String) (quantity : Int)
    (details : OpenLibraryBookDetails) (firestoreBookKey : String) :
    BookSave :=
  { key := firestoreBookKey
    title := details.title
    author_name := (details.authors.getD []).map (fun a => a.name)
    isbn :=
      match details.identifiers with
      | some ids =>
        match ids.isbn_13 with
        | some l => l
        | none =>
          match ids.isbn_10 with
          | some l => l
          | none => [isbn0]
      | none => [isbn0]
    quantity := quantity
    availableQuantity := quantity
    lastAccessedAt := now
    first_publish_year :=
      match details.publish_date with
      | some pd => findYear pd.data
      | none => none
    cover_url_small := details.cover.bind (fun c => c.small)
    cover_url_medium := details.cover.bind (fun c => c.medium)
    cover_url_large := details.cover.bind (fun c => c.large)
    olid :=
      if strStarts firestoreBookKey "OL" then some firestoreBookKey
      else (details.identifiers.bind (fun i => i.openlibrary)).bind List.head?
    description := jsOrStr details.subtitle (notesValue details.notes) }

/-- Embedding of `adminAddBook` (`bookService.ts`, lines 87-155): guards
the parameters, extracts the document key from the payload key path,
builds `dataToSave` (with `quantity` and `availableQuantity` both set to
the supplied quantity), merges it into the store, and returns the saved
document together with the new store.  `none` models every `return null`
path. -/
def adminAddBook (now : Int) (store : List Book) (isbn : String)
    (quantity : Int) (bookDetailsAPI : Option OpenLibraryBookDetails) :
    Option (List Book × Book) :=
  if isbn = "" ∨ quantity < 0 then none
  else
    match bookDetailsAPI with
    | none => none
    | some details =>
      match details.key with
      | none => none
      | some detailsKey =>
        if detailsKey = "" then none
        else
          let firestoreBookKey := (splitSlash detailsKey).getLastD ""
          if firestoreBookKey = "" then none
          else
            let dataToSave := buildDataToSave now isbn quantity details
              firestoreBookKey
            let newStore :=
              if store.any (fun b => b.key = firestoreBookKey) then
                store.map (fun b =>
                  if b.key = firestoreBookKey then mergeSave b dataToSave else b)
              else store ++ [bookOfSave dataToSave]
            match newStore.find? (fun b => b.key = firestoreBookKey) with
            | some saved => some (newStore, saved)
            | none => none

/-! ### Auxiliary semantic helpers -/

/-- State after a `createLoan` call: the committed state on success, the
unchanged state on a thrown error (the transaction aborts). -/
def runCreateLoan (cpfValid : String → Bool) (now : Int) (st : State)
    (loanDetails : CreateLoanInput) (newId : String) : State :=
  match createLoan cpfValid now st loanDetails newId with
  | .ok (st', _) => st'
  | .error _ => st

/-- Boolean success test for an `Except` result. -/
def exceptIsOk {ε α : Type} : Except ε α → Bool
  | .ok _ => true
  | .error _ => false

/-- Number of active loans referencing the given book key. -/
def activeLoanCount (loans : List LoanRec) (key : String) : Nat :=
  (loans.filter (fun l => l.bookKey = key ∧ l.status = LoanStatus.active)).length

/-! ### Concrete fixtures used by witnesses and counterexamples -/

/-- Book with the given key, title, counters and ISBN list; all other
fields empty. -/
def mkBook (key title : String) (quantity availableQuantity : Option Int)
    (isbn : List String) : Book :=
  { key := key, title := title, author_name := [], isbn := isbn,
    first_publish_year := none, cover_i := none, olid := none,
    cover_url_small := none, cover_url_medium := none,
    cover_url_large := none, description := none,
    quantity := quantity, availableQuantity := availableQuantity,
    lastAccessedAt := none }

/-- Loan with the given identity, book reference, loan date and status. -/
def mkLoan (id userId bookKey : String) (loanDate : Int)
    (status : LoanStatus) : LoanRec :=
  { id := id, userId := userId, userDisplayName := none, userEmail := none,
    borrowerCPF := "c", bookKey := bookKey, bookTitle := "t",
    loanDate := loanDate, dueDate := 0, returnDate := none,
    status := status, createdAt := loanDate }

/-- Loan input referencing book `K` with the given due date. -/
def mkInput (dueDate : Option Int) : CreateLoanInput :=
  { userId := "admin", userDisplayName := none, userEmail := none,
    borrowerCPF := "x", bookKey := "K", bookTitle := "T",
    dueDate := dueDate }

/-- Book `K` with zero available copies. -/
def bookW2 : Book := mkBook "K" "T" (some 3) (some 0) []

/-- Store holding only `bookW2`. -/
def stW2 : State := { books := [bookW2], loans := [] }

/-- Store for the idempotent-return witness: one active loan on a book
with one of two copies out. -/
def stW3 : State :=
  { books := [mkBook "K" "T" (some 2) (some 1) []],
    loans := [mkLoan "L1" "admin" "K" 5 LoanStatus.active] }

/-- Store for the round-trip witness: book `K` with two of three copies
available. -/
def stW4 : State := { books := [mkBook "K" "T" (some 3) (some 2) []], loans := [] }

/-- Store for the due-date counterexample: one fully available book. -/
def stC7 : State := { books := [mkBook "K" "T" (some 1) (some 1) []], loans := [] }

/-- Input whose due date lies 61 days past epoch, beyond the documented
60-day horizon for a call made at epoch. -/
def inpC7 : CreateLoanInput := mkInput (some 5270400000)

/-- Book whose title contains the C9 search text only as an inner
substring. -/
def hpBook : Book := mkBook "OL2M" "Harry Potter" (some 1) (some 1) ["111"]

/-- Book whose ISBN contains the C9 search text only as a substring. -/
def isbnBook : Book := mkBook "OLC" "Qqq" (some 1) (some 1) ["9781234567890"]

/-- Book matching the C9 order test by title. -/
def zebraBook : Book := mkBook "OLA" "Zebra" (some 1) (some 1) []

/-- Book matching the C9 order test by exact ISBN only. -/
def appleBook : Book := mkBook "OLB" "Apple" (some 1) (some 1) ["Z"]

/-- Active loan with the earlier loan date, for the C8 counterexample. -/
def loanA : LoanRec := mkLoan "A" "u" "K" 10 LoanStatus.active

/-- Returned loan with the later loan date, for the C8 counterexample. -/
def loanB : LoanRec := mkLoan "B" "u" "K" 20 LoanStatus.returned

/-- Store holding the two C8 loans, both issued by admin `u`. -/
def stC8 : State := { books := [], loans := [loanA, loanB] }

/-- Existing registered book for the C6 counterexample: five copies owned,
two available, with stored description and author list. -/
def oldBookC6 : Book :=
  { mkBook "OL9M" "Old" (some 5) (some 2) ["999"] with
    description := some "kept", author_name := ["X"] }

/-- OpenLibrary payload for the same edition carrying only a key and a
title: no subtitle, authors, identifiers, publish date, notes or cover. -/
def detC6 : OpenLibraryBookDetails :=
  { key := some "/books/OL9M", title := "NewTitle", subtitle := none,
    authors := some [], identifiers := none, publish_date := none,
    notes := none, cover := none }

/-! ### Invariant predicates and the transition system -/

/-- Counter sanity of one book: when both counters are defined,
`0 <= availableQuantity <= quantity`. -/
def bookCountersOkB (b : Book) : Bool :=
  match b.quantity, b.availableQuantity with
  | some q, some a => decide (0 ≤ a ∧ a ≤ q)
  | _, _ => true

/-- A defined total quantity is non-negative (the data model declares
`quantity` a non-negative integer). -/
def bookQuantityNonnegB (b : Book) : Bool :=
  match b.quantity with
  | some q => decide (0 ≤ q)
  | none => true

/-- Counter sanity over a whole book store. -/
def storeCountersOkB (books : List Book) : Bool :=
  books.all bookCountersOkB

/-- Quantity non-negativity over a whole book store. -/
def storeQuantsNonnegB (books : List Book) : Bool :=
  books.all bookQuantityNonnegB

/-- The relationship invariant: for every book with both counters
defined, `quantity - availableQuantity` equals the number of active loans
referencing it. -/
def relEqB (st : State) : Bool :=
  st.books.all (fun b =>
    match b.quantity, b.availableQuantity with
    | some q, some a => decide (q - a = (activeLoanCount st.loans b.key : Int))
    | _, _ => true)

/-- Structural well-formedness of the combined store: unique document
keys and ids, counters defined in pairs, and every active loan backed by
a book document with defined counters. -/
def wellFormedB (st : State) : Bool :=
  decide ((st.books.map Book.key).Nodup) &&
    decide ((st.loans.map LoanRec.id).Nodup) &&
    st.books.all (fun b => b.quantity.isSome == b.availableQuantity.isSome) &&
    st.loans.all (fun l => !(decide (l.status = LoanStatus.active)) ||
      (match findBook st l.bookKey with
       | some b => b.quantity.isSome && b.availableQuantity.isSome
       | none => false))

/-- The inductive invariant of the coordinator: well-formedness plus the
relationship equation. -/
def invariantB (st : State) : Bool :=
  wellFormedB st && relEqB st

/-- Propositional form of the paired-counters condition. -/
def countersDefIff (st : State) : Prop :=
  ∀ b ∈ st.books, b.quantity.isSome = b.availableQuantity.isSome

/-- Propositional form of the backing condition: every active loan
references a stored book with both counters defined. -/
def activeBacked (st : State) : Prop :=
  ∀ l ∈ st.loans, l.status = LoanStatus.active →
    ∃ b, findBook st l.bookKey = some b ∧
      b.quantity.isSome = true ∧ b.availableQuantity.isSome = true

/-- Propositional form of the relationship invariant of the spec: for
every book with both counters defined, `quantity - availableQuantity`
equals the number of active loans referencing it. -/
def relEq (st : State) : Prop :=
  ∀ b ∈ st.books, ∀ q a, b.quantity = some q → b.availableQuantity = some a →
    q - a = (activeLoanCount st.loans b.key : Int)

/-- Propositional form of the full inductive invariant. -/
def InvProp (st : State) : Prop :=
  (st.books.map Book.key).Nodup ∧
    (st.loans.map LoanRec.id).Nodup ∧
    countersDefIff st ∧ activeBacked st ∧ relEq st

/-- The empty store. -/
def stEmpty : State := { books := [], loans := [] }

/-- One committed coordinator transaction: a successful `createLoan`
with a fresh loan id, or a successful `returnBook`. -/
inductive Step : State → State → Prop where
  | create (cpfValid : String → Bool) (now : Int) (loanDetails : CreateLoanInput)
      (newId : String) (st st' : State) (ret : String)
      (hfresh : ∀ l ∈ st.loans, ¬ l.id = newId)
      (hok : createLoan cpfValid now st loanDetails newId = .ok (st', ret)) :
      Step st st'
  | ret (now : Int) (loanId : String) (st st' : State)
      (hok : returnBook now st loanId = .ok st') :
      Step st st'

/-- Reachability by committed coordinator transactions. -/
inductive Reach : State → State → Prop where
  | refl (st : State) : Reach st st
  | tail (s t u : State) (h : Reach s t) (hstep : Step t u) : Reach s u

/-! ## Lemmas about the generic list operations -/

theorem find?_map_self {α : Type} (f : α → α) (p : α → Bool)
    (hp : ∀ x, p (f x) = p x) (l : List α) :
    (l.map f).find? p = (l.find? p).map f := by
  have hcomp : p ∘ f = p := funext hp
  rw [List.find?_map, hcomp]

theorem mem_insertLe {α : Type} (le : α → α → Bool) (x a : α) (l : List α) :
    a ∈ insertLe le x l ↔ a = x ∨ a ∈ l := by
  induction l with
  | nil => simp [insertLe]
  | cons y ys ih =>
    by_cases h : le x y = true
    · simp [insertLe, h]
    · simp only [insertLe, h, if_false, Bool.false_eq_true, ite_false,
        List.mem_cons, ih]
      tauto

theorem mem_sortByLe {α : Type} (le : α → α → Bool) (a : α) (l : List α) :
    a ∈ sortByLe le l ↔ a ∈ l := by
  induction l with
  | nil => simp [sortByLe]
  | cons y ys ih => simp [sortByLe, mem_insertLe, ih]

theorem length_insertLe {α : Type} (le : α → α → Bool) (x : α) (l : List α) :
    (insertLe le x l).length = l.length + 1 := by
  induction l with
  | nil => simp [insertLe]
  | cons y ys ih =>
    by_cases h : le x y = true <;> simp [insertLe, h, ih]

theorem length_sortByLe {α : Type} (le : α → α → Bool) (l : List α) :
    (sortByLe le l).length = l.length := by
  induction l with
  | nil => simp [sortByLe]
  | cons y ys ih => simp [sortByLe, length_insertLe, ih]

theorem pairwise_insertLe {α : Type} (le : α → α → Bool)
    (htrans : ∀ a b c, le a b = true → le b c = true → le a c = true)
    (htot : ∀ a b, le a b = true ∨ le b a = true) (x : α) (l : List α)
    (h : l.Pairwise fun a b => le a b = true) :
    (insertLe le x l).Pairwise fun a b => le a b = true := by
  induction l with
  | nil => simp [insertLe]
  | cons y ys ih =>
    rw [List.pairwise_cons] at h
    obtain ⟨hy, hys⟩ := h
    by_cases hxy : le x y = true
    · simp only [insertLe, hxy, if_true]
      refine List.Pairwise.cons ?_ (List.Pairwise.cons hy hys)
      intro z hz
      rcases List.mem_cons.mp hz with rfl | hz
      · exact hxy
      · exact htrans x y z hxy (hy z hz)
    · simp only [insertLe, hxy, Bool.false_eq_true, ite_false]
      refine List.Pairwise.cons ?_ (ih hys)
      intro z hz
      rcases (mem_insertLe le x z ys).mp hz with rfl | hz
      · rcases htot z y with h' | h'
        · exact absurd h' hxy
        · exact h'
      · exact hy z hz

theorem pairwise_sortByLe {α : Type} (le : α → α → Bool)
    (htrans : ∀ a b c, le a b = true → le b c = true → le a c = true)
    (htot : ∀ a b, le a b = true ∨ le b a = true) (l : List α) :
    (sortByLe le l).Pairwise fun a b => le a b = true := by
  induction l with
  | nil => simp [sortByLe]
  | cons y ys ih => exact pairwise_insertLe le htrans htot y _ ih

/-! ## Inversion lemmas for the coordinator operations -/

theorem createLoan_ok_cases (cpfValid : String → Bool) (now : Int)
    (st : State) (inp : CreateLoanInput) (newId : String) (st1 : State)
    (r : String)
    (h : createLoan cpfValid now st inp newId = .ok (st1, r)) :
    ∃ b a, findBook st inp.bookKey = some b ∧
      b.availableQuantity = some a ∧ 0 < a ∧ r = newId ∧
      st1 = { books := st.books.map (fun bb =>
                if bb.key = inp.bookKey then
                  { bb with availableQuantity := some (a - 1) }
                else bb)
              loans := newLoanOf inp now newId :: st.loans } := by
  unfold createLoan at h
  split at h
  · simp at h
  · split at h
    · simp at h
    · rename_i b hb
      split at h
      · simp at h
      · rename_i a ha
        split at h
        · simp at h
        · rename_i hle
          simp only [Except.ok.injEq, Prod.mk.injEq] at h
          exact ⟨b, a, hb, ha, by omega, h.2.symm, h.1.symm⟩

theorem returnBook_ok_cases (now : Int) (st : State) (loanId : String)
    (st1 : State) (h : returnBook now st loanId = .ok st1) :
    ¬ loanId = "" ∧
      ((∃ l, findLoan st loanId = some l ∧ l.status = .returned ∧ st1 = st) ∨
       (∃ l b, findLoan st loanId = some l ∧ l.status = .active ∧
         findBook st l.bookKey = some b ∧
         st1 = { books := st.books.map (fun bb =>
                   if bb.key = l.bookKey then
                     { bb with availableQuantity := some (min (b.availableQuantity.getD 0 + 1) (b.quantity.getD (b.availableQuantity.getD 0 + 1))) }
                   else bb)
                 loans := st.loans.map (fun x =>
                   if x.id = loanId then
                     { x with status := .returned, returnDate := some now }
                   else x) })) := by
  unfold returnBook at h
  split at h
  · simp at h
  · rename_i hid
    refine ⟨hid, ?_⟩
    split at h
    · simp at h
    · rename_i l hl
      split at h
      · rename_i hret
        left
        simp only [Except.ok.injEq] at h
        exact ⟨l, hl, hret, h.symm⟩
      · rename_i hret
        right
        split at h
        · simp at h
        · rename_i b hb
          simp only [Except.ok.injEq] at h
          have hact : l.status = LoanStatus.active := by
            cases hst : l.status
            · rfl
            · exact absurd hst hret
          exact ⟨l, b, hl, hact, hb, h.symm⟩

/-! ## Claim C10 -/

/-- C10: for every search text that is empty or consists only of
whitespace, the catalog search returns the empty list without issuing any
store query (the result is `[]` for every store), regardless of the limit
and availability-filter arguments. -/
theorem c10_blank_search_is_empty (store : List Book) (searchText : String)
    (searchLimit : Nat) (filterByAvailability : Bool)
    (h : jsTrim searchText = "") :
    searchLibraryBooks store searchText searchLimit filterByAvailability = [] := by
  simp [searchLibraryBooks, h]

/-- Witness for C10 at the concrete text of three spaces. -/
theorem c10_blank_search_is_empty_witness :
    jsTrim "   " = "" ∧
      searchLibraryBooks [mkBook "K" "T" (some 1) (some 1) []] "   " 7 true = [] :=
  ⟨by decide, c10_blank_search_is_empty _ _ _ _ (by decide)⟩

/-! ## Claim C2 -/

/-- C2: for every book whose `availableQuantity` is undefined, zero, or
negative, a `createLoan` over it (with input passing validation) fails
with the unavailability error, and the aborted transaction leaves the
state unchanged: no loan record is created and the counters stay as they
were. -/
theorem c2_unavailable_no_change (cpfValid : String → Bool) (now : Int)
    (st : State) (inp : CreateLoanInput) (newId : String) (b : Book)
    (hval : validateLoanInput cpfValid now inp = none)
    (hfind : findBook st inp.bookKey = some b)
    (hq : b.availableQuantity = none ∨ ∃ a, b.availableQuantity = some a ∧ a ≤ 0) :
    createLoan cpfValid now st inp newId = .error .unavailable ∧
      runCreateLoan cpfValid now st inp newId = st := by
  have hmain : createLoan cpfValid now st inp newId = .error .unavailable := by
    rcases hq with hnone | ⟨a, ha, hle⟩
    · simp [createLoan, hval, hfind, hnone]
    · simp [createLoan, hval, hfind, ha, hle]
  exact ⟨hmain, by simp [runCreateLoan, hmain]⟩

/-- Witness for C2 on a store whose only book has zero available copies. -/
theorem c2_unavailable_no_change_witness :
    validateLoanInput (fun _ => true) 0 (mkInput (some 10)) = none ∧
      findBook stW2 (mkInput (some 10)).bookKey = some bookW2 ∧
      bookW2.availableQuantity = some 0 ∧
      (createLoan (fun _ => true) 0 stW2 (mkInput (some 10)) "L1" =
          .error .unavailable ∧
        runCreateLoan (fun _ => true) 0 stW2 (mkInput (some 10)) "L1" = stW2) :=
  ⟨by decide, by decide, by decide,
    c2_unavailable_no_change (fun _ => true) 0 stW2 (mkInput (some 10)) "L1"
      bookW2 (by decide) (by decide) (Or.inr ⟨0, by decide, by decide⟩)⟩

/-! ## Claim C7 -/

/-- C7 counterexample: an input whose due date lies 61 days in the future
(beyond the 60-day horizon the claim requires to be rejected) passes
validation, reaches storage and commits: a loan record is created.  The
60-day bound is enforced only by the admin form, not by `createLoan`. -/
theorem c7_counterexample :
    (60 * 86400000 : Int) < 5270400000 ∧
      inpC7.dueDate = some 5270400000 ∧
      exceptIsOk (createLoan (fun _ => true) 0 stC7 inpC7 "L1") = true ∧
      (runCreateLoan (fun _ => true) 0 stC7 inpC7 "L1").loans.length = 1 := by
  refine ⟨by decide, by decide, by decide, by decide⟩

/-- C7 amended: for every input that passes the CPF and book checks and
whose due date is missing or not strictly in the future, `createLoan`
fails with a pure validation error before any storage access: the same
error results for every store.  No 60-day maximum horizon is enforced by
the service. -/
theorem c7_amended_validation_before_storage (cpfValid : String → Bool)
    (now : Int) (inp : CreateLoanInput)
    (hcpf : ¬ (inp.borrowerCPF = "" ∨ ¬ cpfValid inp.borrowerCPF = true))
    (hbk : ¬ inp.bookKey = "")
    (hdue : inp.dueDate = none ∨ ∃ d, inp.dueDate = some d ∧ d < now) :
    ∃ e, e.isValidation = true ∧
      ∀ st newId, createLoan cpfValid now st inp newId = .error e := by
  have h1 : ¬ inp.borrowerCPF = "" := fun hh => hcpf (Or.inl hh)
  have h2 : cpfValid inp.borrowerCPF = true := by
    by_contra hcon
    exact hcpf (Or.inr (by simpa using hcon))
  rcases hdue with hnone | ⟨d, hd, hlt⟩
  · exact ⟨.noDueDate, rfl, fun st newId => by
      simp [createLoan, validateLoanInput, h1, h2, hbk, hnone]⟩
  · exact ⟨.dueDateInPast, rfl, fun st newId => by
      simp [createLoan, validateLoanInput, h1, h2, hbk, hd, hlt]⟩

/-- Witness for the amended C7: a due date of yesterday relative to now. -/
theorem c7_amended_validation_before_storage_witness :
    ¬ ((mkInput (some 0)).borrowerCPF = "" ∨
        ¬ (fun (_ : String) => true) (mkInput (some 0)).borrowerCPF = true) ∧
      ¬ (mkInput (some 0)).bookKey = "" ∧
      (∃ d, (mkInput (some 0)).dueDate = some d ∧ d < 86400000) ∧
      ∃ e, LoanError.isValidation e = true ∧
        ∀ st newId,
          createLoan (fun _ => true) 86400000 st (mkInput (some 0)) newId =
            .error e :=
  ⟨by decide, by decide, ⟨0, by decide, by decide⟩,
    c7_amended_validation_before_storage (fun _ => true) 86400000
      (mkInput (some 0)) (by decide) (by decide) (Or.inr ⟨0, by decide, by decide⟩)⟩

/-! ## Claim C3 -/

/-- C3: returning a loan twice is idempotent.  For an existing active loan
on a book with defined counters that has at least one copy out
(`availableQuantity < quantity`), the first `returnBook` succeeds, the
second succeeds and leaves the state exactly as the first left it, and
the available quantity is incremented exactly once across the two calls. -/
theorem c3_idempotent_return (now now2 : Int) (st : State) (loanId : String)
    (l : LoanRec) (b : Book) (a q : Int)
    (hid : ¬ loanId = "")
    (hl : findLoan st loanId = some l)
    (hact : l.status = .active)
    (hb : findBook st l.bookKey = some b)
    (ha : b.availableQuantity = some a)
    (hq : b.quantity = some q)
    (haq : a < q) :
    ∃ st1, returnBook now st loanId = .ok st1 ∧
      returnBook now2 st1 loanId = .ok st1 ∧
      ∃ b1, findBook st1 l.bookKey = some b1 ∧
        b1.availableQuantity = some (a + 1) := by
  have hstat : ¬ l.status = LoanStatus.returned := by
    rw [hact]; intro hcon; cases hcon
  have hclamp : min (a + 1) q = a + 1 := min_eq_left (by omega)
  have hfirst : returnBook now st loanId = .ok
      { books := st.books.map (fun bb =>
          if bb.key = l.bookKey then
            { bb with availableQuantity := some (a + 1) }
          else bb)
        loans := st.loans.map (fun x =>
          if x.id = loanId then
            { x with status := .returned, returnDate := some now }
          else x) } := by
    simp [returnBook, hid, hl, hstat, hb, ha, hq, hclamp]
  refine ⟨_, hfirst, ?_, ?_⟩
  · -- second call: the loan is now returned, so the call is a no-op success
    have hlid : l.id = loanId := by
      have := List.find?_some hl
      simpa using this
    have hfind2 : (st.loans.map (fun x =>
        if x.id = loanId then
          { x with status := LoanStatus.returned, returnDate := some now }
        else x)).find? (fun x => x.id = loanId) =
        some { l with status := LoanStatus.returned, returnDate := some now } := by
      rw [find?_map_self _ _ (fun x => by by_cases hx : x.id = loanId <;> simp [hx])]
      rw [show st.loans.find? (fun x => x.id = loanId) = some l from hl]
      simp [hlid]
    simp [returnBook, findLoan, hid, hfind2]
  · -- the available quantity went up by exactly one
    have hbkey : b.key = l.bookKey := by
      have := List.find?_some hb
      simpa using this
    have hfindb : (st.books.map (fun bb =>
        if bb.key = l.bookKey then
          { bb with availableQuantity := some (a + 1) }
        else bb)).find? (fun bb => bb.key = l.bookKey) =
        some { b with availableQuantity := some (a + 1) } := by
      rw [find?_map_self _ _ (fun bb => by by_cases hx : bb.key = l.bookKey <;> simp [hx])]
      rw [show st.books.find? (fun bb => bb.key = l.bookKey) = some b from hb]
      simp [hbkey]
    exact ⟨_, hfindb, rfl⟩

/-- Witness for C3 on a one-loan store. -/
theorem c3_idempotent_return_witness :
    findLoan stW3 "L1" = some (mkLoan "L1" "admin" "K" 5 LoanStatus.active) ∧
      findBook stW3 "K" = some (mkBook "K" "T" (some 2) (some 1) []) ∧
      ∃ st1, returnBook 9 stW3 "L1" = .ok st1 ∧
        returnBook 11 st1 "L1" = .ok st1 ∧
        ∃ b1, findBook st1 (mkLoan "L1" "admin" "K" 5 LoanStatus.active).bookKey = some b1 ∧
          b1.availableQuantity = some (1 + 1) :=
  ⟨by decide, by decide,
    c3_idempotent_return 9 11 stW3 "L1"
      (mkLoan "L1" "admin" "K" 5 LoanStatus.active)
      (mkBook "K" "T" (some 2) (some 1) []) 1 2
      (by decide) (by decide) (by decide) (by decide) (by decide) (by decide)
      (by decide)⟩

/-! ## Claim C4 -/

/-- C4: round trip.  For a book with defined counters satisfying
`0 < availableQuantity ≤ quantity`, a successful `createLoan` followed by
`returnBook` on the loan id it returns restores the available quantity to
exactly its pre-loan value. -/
theorem c4_round_trip (cpfValid : String → Bool) (now now2 : Int)
    (st : State) (inp : CreateLoanInput) (newId : String) (b : Book)
    (a q : Int)
    (hval : validateLoanInput cpfValid now inp = none)
    (hfind : findBook st inp.bookKey = some b)
    (ha : b.availableQuantity = some a)
    (hq : b.quantity = some q)
    (hpos : 0 < a) (hle : a ≤ q)
    (hnid : ¬ newId = "") :
    ∃ st1 st2, createLoan cpfValid now st inp newId = .ok (st1, newId) ∧
      returnBook now2 st1 newId = .ok st2 ∧
      ∃ b2, findBook st2 inp.bookKey = some b2 ∧
        b2.availableQuantity = some a := by
  have hbkey : b.key = inp.bookKey := by
    have := List.find?_some hfind
    simpa using this
  have hgt : ¬ a ≤ 0 := by omega
  have hp1 : ∀ bb : Book,
      (decide ((if bb.key = inp.bookKey then
        { bb with availableQuantity := some (a - 1) } else bb).key = inp.bookKey)) =
        decide (bb.key = inp.bookKey) := by
    intro bb
    by_cases hx : bb.key = inp.bookKey <;> simp [hx]
  have hcreate : createLoan cpfValid now st inp newId = .ok
      ({ books := st.books.map (fun bb =>
           if bb.key = inp.bookKey then
             { bb with availableQuantity := some (a - 1) }
           else bb)
         loans := { id := newId, userId := inp.userId,
                    userDisplayName := inp.userDisplayName,
                    userEmail := inp.userEmail,
                    borrowerCPF := inp.borrowerCPF, bookKey := inp.bookKey,
                    bookTitle := inp.bookTitle, loanDate := now,
                    dueDate := inp.dueDate.getD now, returnDate := none,
                    status := .active, createdAt := now } :: st.loans }, newId) := by
    simp [createLoan, newLoanOf, hval, hfind, ha, hgt]
  have hfindb1 : (st.books.map (fun bb =>
      if bb.key = inp.bookKey then
        { bb with availableQuantity := some (a - 1) }
      else bb)).find? (fun bb => bb.key = inp.bookKey) =
      some { b with availableQuantity := some (a - 1) } := by
    rw [find?_map_self _ _ hp1]
    rw [show st.books.find? (fun bb => bb.key = inp.bookKey) = some b from hfind]
    simp [hbkey]
  have hclamp : min (a - 1 + 1) q = a := by omega
  have hreturn : returnBook now2
      { books := st.books.map (fun bb =>
          if bb.key = inp.bookKey then
            { bb with availableQuantity := some (a - 1) }
          else bb)
        loans := { id := newId, userId := inp.userId,
                   userDisplayName := inp.userDisplayName,
                   userEmail := inp.userEmail,
                   borrowerCPF := inp.borrowerCPF, bookKey := inp.bookKey,
                   bookTitle := inp.bookTitle, loanDate := now,
                   dueDate := inp.dueDate.getD now, returnDate := none,
                   status := .active, createdAt := now } :: st.loans } newId = .ok
      { books := (st.books.map (fun bb =>
          if bb.key = inp.bookKey then
            { bb with availableQuantity := some (a - 1) }
          else bb)).map (fun bb =>
          if bb.key = inp.bookKey then
            { bb with availableQuantity := some a }
          else bb)
        loans := ({ id := newId, userId := inp.userId,
                    userDisplayName := inp.userDisplayName,
                    userEmail := inp.userEmail,
                    borrowerCPF := inp.borrowerCPF, bookKey := inp.bookKey,
                    bookTitle := inp.bookTitle, loanDate := now,
                    dueDate := inp.dueDate.getD now, returnDate := none,
                    status := LoanStatus.active, createdAt := now } :: st.loans).map
          (fun x =>
            if x.id = newId then
              { x with status := .returned, returnDate := some now2 }
            else x) } := by
    simp [returnBook, findLoan, findBook, hnid, hfindb1, hq, hclamp]
    intro bb _
    by_cases hx : bb.key = inp.bookKey
    · simp [hx, hle]
    · simp [hx]
  have hfindb2 : ((st.books.map (fun bb =>
      if bb.key = inp.bookKey then
        { bb with availableQuantity := some (a - 1) }
      else bb)).map (fun bb =>
      if bb.key = inp.bookKey then
        { bb with availableQuantity := some a }
      else bb)).find? (fun bb => bb.key = inp.bookKey) =
      some { b with availableQuantity := some a } := by
    have hp2 : ∀ bb : Book,
        (decide ((if bb.key = inp.bookKey then
          { bb with availableQuantity := some a } else bb).key = inp.bookKey)) =
          decide (bb.key = inp.bookKey) := by
      intro bb
      by_cases hx : bb.key = inp.bookKey <;> simp [hx]
    rw [find?_map_self _ _ hp2, hfindb1]
    simp [hbkey]
  exact ⟨_, _, hcreate, hreturn, ⟨_, hfindb2, rfl⟩⟩

/-- Witness for C4: book with two of three copies available; the loan and
return round trip brings the count back to two. -/
theorem c4_round_trip_witness :
    validateLoanInput (fun _ => true) 0 (mkInput (some 10)) = none ∧
      findBook stW4 (mkInput (some 10)).bookKey =
        some (mkBook "K" "T" (some 3) (some 2) []) ∧
      ∃ st1 st2,
        createLoan (fun _ => true) 0 stW4 (mkInput (some 10)) "L1" =
          .ok (st1, "L1") ∧
        returnBook 20 st1 "L1" = .ok st2 ∧
        ∃ b2, findBook st2 (mkInput (some 10)).bookKey = some b2 ∧
          b2.availableQuantity = some 2 :=
  ⟨by decide, by decide,
    c4_round_trip (fun _ => true) 0 20 stW4 (mkInput (some 10)) "L1"
      (mkBook "K" "T" (some 3) (some 2) []) 2 3
      (by decide) (by decide) (by decide) (by decide) (by decide) (by decide)
      (by decide)⟩

/-! ## Claim C8 -/

/-- C8 counterexample: `getUserLoans` orders solely by loan date
descending, so for admin `u` the returned loan `loanB` (loan date 20)
surfaces before the active loan `loanA` (loan date 10), violating the
claimed active-before-returned order; `getAllLoans` on the same store
does put the active loan first. -/
theorem c8_counterexample :
    getUserLoans stC8 "u" = [loanB, loanA] ∧
      loanB.status = .returned ∧ loanA.status = .active ∧
      getAllLoans stC8 = [loanA, loanB] := by
  refine ⟨by decide, by decide, by decide, by decide⟩

/-- C8 amended: `getAllLoans` returns every loan ordered with active
before returned and by loan date descending within a status group, while
`getUserLoans` returns exactly the loans of the given admin ordered by
loan date descending only, with no status precedence. -/
theorem c8_amended_query_order (st : State) (uid : String)
    (huid : ¬ uid = "") :
    (getAllLoans st).Pairwise (fun a b => statusThenDateLe a b = true) ∧
      (∀ l, l ∈ getAllLoans st ↔ l ∈ st.loans) ∧
      (getUserLoans st uid).Pairwise (fun a b => loanDateDescLe a b = true) ∧
      (∀ l, l ∈ getUserLoans st uid ↔ l ∈ st.loans ∧ l.userId = uid) := by
  have htransS : ∀ a b c : LoanRec, statusThenDateLe a b = true →
      statusThenDateLe b c = true → statusThenDateLe a c = true := by
    intro a b c hab hbc
    simp only [statusThenDateLe, Bool.or_eq_true, Bool.and_eq_true,
      decide_eq_true_eq] at hab hbc ⊢
    omega
  have htotS : ∀ a b : LoanRec, statusThenDateLe a b = true ∨
      statusThenDateLe b a = true := by
    intro a b
    simp only [statusThenDateLe, Bool.or_eq_true, Bool.and_eq_true,
      decide_eq_true_eq]
    omega
  have htransD : ∀ a b c : LoanRec, loanDateDescLe a b = true →
      loanDateDescLe b c = true → loanDateDescLe a c = true := by
    intro a b c hab hbc
    simp only [loanDateDescLe, decide_eq_true_eq] at hab hbc ⊢
    omega
  have htotD : ∀ a b : LoanRec, loanDateDescLe a b = true ∨
      loanDateDescLe b a = true := by
    intro a b
    simp only [loanDateDescLe, decide_eq_true_eq]
    omega
  refine ⟨pairwise_sortByLe _ htransS htotS _, fun l => mem_sortByLe _ _ _, ?_, ?_⟩
  · simp only [getUserLoans, huid, if_false]
    exact pairwise_sortByLe _ htransD htotD _
  · intro l
    simp [getUserLoans, huid, mem_sortByLe, List.mem_filter]

/-- Witness for the amended C8 on the two-loan store. -/
theorem c8_amended_query_order_witness :
    ¬ "u" = "" ∧
      ((getAllLoans stC8).Pairwise (fun a b => statusThenDateLe a b = true) ∧
        (∀ l, l ∈ getAllLoans stC8 ↔ l ∈ stC8.loans) ∧
        (getUserLoans stC8 "u").Pairwise (fun a b => loanDateDescLe a b = true) ∧
        (∀ l, l ∈ getUserLoans stC8 "u" ↔ l ∈ stC8.loans ∧ l.userId = "u")) :=
  ⟨by decide, c8_amended_query_order stC8 "u" (by decide)⟩

/-! ## Claim C6 -/

/-- C6 counterexample: re-registering the existing book `OL9M` (five
owned, two available) with quantity 10 resets `availableQuantity` to 10
instead of leaving it at 2, and replaces the stored author list with the
empty payload list; the omitted description is preserved. -/
theorem c6_counterexample :
    oldBookC6.availableQuantity = some 2 ∧
      oldBookC6.author_name = ["X"] ∧
      (adminAddBook 50 [oldBookC6] "123" 10 (some detC6)).map
          (fun p => p.2.availableQuantity) = some (some 10) ∧
      (adminAddBook 50 [oldBookC6] "123" 10 (some detC6)).map
          (fun p => p.2.author_name) = some [] ∧
      (adminAddBook 50 [oldBookC6] "123" 10 (some detC6)).map
          (fun p => p.2.description) = some (some "kept") := by
  refine ⟨by decide, by decide, by decide, by decide, by decide⟩

/-- C6 amended: re-registration of an existing book overwrites `quantity`
AND resets `availableQuantity` to the supplied quantity; optional
descriptive fields omitted in the fetched payload (description when no
subtitle and no notes, publish year when no publish date, cover URLs when
no cover, and `cover_i`, which is never part of the payload) keep their
stored values, while the title and author list are always rewritten from
the payload; books under other keys are untouched. -/
theorem c6_amended_reregistration (now : Int) (store : List Book)
    (isbn0 : String) (quantity : Int) (details : OpenLibraryBookDetails)
    (dkey fkey : String) (b : Book)
    (hisbn : ¬ isbn0 = "") (hq : 0 ≤ quantity)
    (hdk : details.key = some dkey) (hdk0 : ¬ dkey = "")
    (hfkey : (splitSlash dkey).getLastD "" = fkey) (hf0 : ¬ fkey = "")
    (hmem : store.find? (fun bb => bb.key = fkey) = some b) :
    ∃ newStore saved,
      adminAddBook now store isbn0 quantity (some details) =
        some (newStore, saved) ∧
      saved.quantity = some quantity ∧
      saved.availableQuantity = some quantity ∧
      saved.title = details.title ∧
      saved.author_name = (details.authors.getD []).map (fun a => a.name) ∧
      saved.cover_i = b.cover_i ∧
      (details.subtitle = none → details.notes = none →
        saved.description = b.description) ∧
      (details.publish_date = none →
        saved.first_publish_year = b.first_publish_year) ∧
      (details.cover = none →
        saved.cover_url_small = b.cover_url_small ∧
        saved.cover_url_medium = b.cover_url_medium ∧
        saved.cover_url_large = b.cover_url_large) ∧
      (∀ c ∈ store, ¬ c.key = fkey → c ∈ newStore) := by
  have hqlt : ¬ quantity < 0 := by omega
  have hbmem : b ∈ store ∧ b.key = fkey := by
    refine ⟨List.mem_of_find?_eq_some hmem, ?_⟩
    have := List.find?_some hmem
    simpa using this
  have hany : store.any (fun bb => bb.key = fkey) = true := by
    rw [List.any_eq_true]
    exact ⟨b, hbmem.1, by simp [hbmem.2]⟩
  have hkeysave : (buildDataToSave now isbn0 quantity details fkey).key = fkey := rfl
  have hp : ∀ bb : Book,
      (decide ((if bb.key = fkey then
        mergeSave bb (buildDataToSave now isbn0 quantity details fkey)
        else bb).key = fkey)) = decide (bb.key = fkey) := by
    intro bb
    by_cases hx : bb.key = fkey <;> simp [hx, mergeSave, hkeysave]
  have hfind : (store.map (fun bb =>
      if bb.key = fkey then
        mergeSave bb (buildDataToSave now isbn0 quantity details fkey)
      else bb)).find? (fun bb => bb.key = fkey) =
      some (mergeSave b (buildDataToSave now isbn0 quantity details fkey)) := by
    rw [find?_map_self _ _ hp, hmem]
    simp [hbmem.2]
  have hrun : adminAddBook now store isbn0 quantity (some details) =
      some (store.map (fun bb =>
          if bb.key = fkey then
            mergeSave bb (buildDataToSave now isbn0 quantity details fkey)
          else bb),
        mergeSave b (buildDataToSave now isbn0 quantity details fkey)) := by
    simp only [adminAddBook, hdk, hfkey]
    rw [if_neg (by simp [hisbn, hqlt]), if_neg hdk0, if_neg hf0]
    simp only [hany, if_true, hfind]
  refine ⟨_, _, hrun, rfl, rfl, rfl, rfl, rfl, ?_, ?_, ?_, ?_⟩
  · intro hsub hnotes
    simp [mergeSave, buildDataToSave, mergeField, hsub, hnotes, jsOrStr,
      notesValue]
  · intro hpd
    simp [mergeSave, buildDataToSave, mergeField, hpd]
  · intro hcov
    simp [mergeSave, buildDataToSave, mergeField, hcov]
  · intro c hc hckey
    rw [List.mem_map]
    exact ⟨c, hc, by simp [hckey]⟩

/-- Witness for the amended C6 on the concrete `OL9M` store. -/
theorem c6_amended_reregistration_witness :
    detC6.key = some "/books/OL9M" ∧
      (splitSlash "/books/OL9M").getLastD "" = "OL9M" ∧
      [oldBookC6].find? (fun bb => bb.key = "OL9M") = some oldBookC6 ∧
      (∃ newStore saved,
        adminAddBook 50 [oldBookC6] "123" 10 (some detC6) =
          some (newStore, saved) ∧
        saved.quantity = some 10 ∧
        saved.availableQuantity = some 10 ∧
        saved.title = detC6.title ∧
        saved.author_name = (detC6.authors.getD []).map (fun a => a.name) ∧
        saved.cover_i = oldBookC6.cover_i ∧
        (detC6.subtitle = none → detC6.notes = none →
          saved.description = oldBookC6.description) ∧
        (detC6.publish_date = none →
          saved.first_publish_year = oldBookC6.first_publish_year) ∧
        (detC6.cover = none →
          saved.cover_url_small = oldBookC6.cover_url_small ∧
          saved.cover_url_medium = oldBookC6.cover_url_medium ∧
          saved.cover_url_large = oldBookC6.cover_url_large) ∧
        (∀ c ∈ [oldBookC6], ¬ c.key = "OL9M" → c ∈ newStore)) :=
  ⟨by decide, by decide, by decide,
    c6_amended_reregistration 50 [oldBookC6] "123" 10 detC6 "/books/OL9M"
      "OL9M" oldBookC6 (by decide) (by decide) (by decide) (by decide)
      (by decide) (by decide) (by decide)⟩

/-! ## Nodup lookup uniqueness -/

theorem find?_key_unique (books : List Book) (k : String) (b : Book)
    (hnd : (books.map Book.key).Nodup)
    (hfind : books.find? (fun bb => bb.key = k) = some b)
    (c : Book) (hc : c ∈ books) (hck : c.key = k) : c = b := by
  have hb : b ∈ books := List.mem_of_find?_eq_some hfind
  have hbk : b.key = k := by
    have := List.find?_some hfind
    simpa using this
  exact List.inj_on_of_nodup_map hnd hc hb (by rw [hck, hbk])

theorem find?_id_unique (loans : List LoanRec) (i : String) (l : LoanRec)
    (hnd : (loans.map LoanRec.id).Nodup)
    (hfind : loans.find? (fun x => x.id = i) = some l)
    (c : LoanRec) (hc : c ∈ loans) (hci : c.id = i) : c = l := by
  have hl : l ∈ loans := List.mem_of_find?_eq_some hfind
  have hlk : l.id = i := by
    have := List.find?_some hfind
    simpa using this
  exact List.inj_on_of_nodup_map hnd hc hl (by rw [hci, hlk])

/-! ## Claim C5 -/

/-- C5: for every book whose two counters are defined,
`0 <= availableQuantity <= quantity` holds after every mutating
operation, assuming it held before (together with the data-model facts
that defined quantities are non-negative and document keys are unique):
the `createLoan` decrement, the clamped `returnBook` increment and the
admin registration all preserve the bound. -/
theorem c5_counter_bounds_preserved (st : State)
    (hnn : storeQuantsNonnegB st.books = true)
    (hok : storeCountersOkB st.books = true)
    (hnd : (st.books.map Book.key).Nodup) :
    (∀ cpfValid now inp newId st1 r,
      createLoan cpfValid now st inp newId = .ok (st1, r) →
      storeCountersOkB st1.books = true) ∧
    (∀ now loanId st1, returnBook now st loanId = .ok st1 →
      storeCountersOkB st1.books = true) ∧
    (∀ now isbn0 quantity details store1 saved,
      adminAddBook now st.books isbn0 quantity details = some (store1, saved) →
      storeCountersOkB store1 = true) := by
  have hok' : ∀ bb ∈ st.books, bookCountersOkB bb = true := by
    simpa [storeCountersOkB, List.all_eq_true] using hok
  have hnn' : ∀ bb ∈ st.books, bookQuantityNonnegB bb = true := by
    simpa [storeQuantsNonnegB, List.all_eq_true] using hnn
  refine ⟨?_, ?_, ?_⟩
  · -- createLoan: the found book had a positive count, the decrement keeps it in range
    intro cpfValid now inp newId st1 r h
    obtain ⟨b, a, hb, ha, hapos, -, rfl⟩ :=
      createLoan_ok_cases cpfValid now st inp newId st1 r h
    simp only [storeCountersOkB, List.all_eq_true]
    intro bb hbb
    obtain ⟨c, hc, rfl⟩ := List.mem_map.mp hbb
    by_cases hck : c.key = inp.bookKey
    · have hcb : c = b :=
        find?_key_unique st.books inp.bookKey b hnd hb c hc hck
      subst hcb
      cases hq : c.quantity with
      | none => simp [bookCountersOkB, hck, hq]
      | some q =>
        have := hok' c hc
        rw [bookCountersOkB, hq, ha] at this
        simp only [decide_eq_true_eq] at this
        simp only [hck, if_true, bookCountersOkB, hq, decide_eq_true_eq]
        omega
    · simp only [hck, if_false]
      exact hok' c hc
  · -- returnBook: the clamp keeps the count within the bound
    intro now loanId st1 h
    obtain ⟨hid, hcase⟩ := returnBook_ok_cases now st loanId st1 h
    rcases hcase with ⟨l, hl, hret, rfl⟩ | ⟨l, b, hl, hact, hb, rfl⟩
    · exact hok
    · simp only [storeCountersOkB, List.all_eq_true]
      intro bb hbb
      obtain ⟨c, hc, rfl⟩ := List.mem_map.mp hbb
      by_cases hck : c.key = l.bookKey
      · have hcb : c = b :=
          find?_key_unique st.books l.bookKey b hnd hb c hc hck
        subst hcb
        cases hq : c.quantity with
        | none => simp [bookCountersOkB, hck, hq]
        | some q =>
          have hq0 : (0 : Int) ≤ q := by
            have := hnn' c hc
            rw [bookQuantityNonnegB, hq] at this
            simpa using this
          simp only [hck, if_true, bookCountersOkB, hq, decide_eq_true_eq]
          cases hav : c.availableQuantity with
          | none =>
            simp only [hav, Option.getD_none, Option.getD_some, hq]
            exact ⟨le_min (by omega) hq0, min_le_right _ _⟩
          | some a =>
            have := hok' c hc
            rw [bookCountersOkB, hq, hav] at this
            simp only [decide_eq_true_eq] at this
            simp only [hav, Option.getD_some, hq]
            exact ⟨le_min (by omega) hq0, min_le_right _ _⟩
      · simp only [hck, if_false]
        exact hok' c hc
  · -- adminAddBook: both counters are rewritten to the same non-negative quantity
    intro now isbn0 quantity details store1 saved h
    by_cases hguard : isbn0 = "" ∨ quantity < 0
    · unfold adminAddBook at h
      rw [if_pos hguard] at h
      simp at h
    · have hqn : (0 : Int) ≤ quantity := by
        rcases not_or.mp hguard with ⟨-, h2⟩
        omega
      unfold adminAddBook at h
      rw [if_neg hguard] at h
      cases details with
      | none => simp at h
      | some d =>
        try dsimp only at h
        cases hdk : d.key with
        | none => rw [hdk] at h; simp at h
        | some dkey =>
          rw [hdk] at h
          try dsimp only at h
          by_cases hdk0 : dkey = ""
          · rw [if_pos hdk0] at h; simp at h
          · rw [if_neg hdk0] at h
            try dsimp only at h
            by_cases hfk : (splitSlash dkey).getLastD "" = ""
            · rw [if_pos hfk] at h; simp at h
            · rw [if_neg hfk] at h
              try dsimp only at h
              split at h
              · rename_i saved2 hfind2
                simp only [Option.some.injEq, Prod.mk.injEq] at h
                obtain ⟨hstore, -⟩ := h
                subst hstore
                by_cases hany : (st.books.any
                    (fun bb => bb.key = (splitSlash dkey).getLastD "")) = true
                · rw [if_pos hany]
                  simp only [storeCountersOkB, List.all_eq_true]
                  intro bb hbb
                  obtain ⟨c, hc, rfl⟩ := List.mem_map.mp hbb
                  by_cases hck : c.key = (splitSlash dkey).getLastD ""
                  · simp only [hck, if_true, mergeSave, bookCountersOkB,
                      buildDataToSave, decide_eq_true_eq]
                    omega
                  · simp only [hck, if_false]
                    exact hok' c hc
                · rw [if_neg hany]
                  simp only [storeCountersOkB, List.all_append,
                    Bool.and_eq_true, List.all_eq_true]
                  refine ⟨fun c hc => hok' c hc, ?_⟩
                  intro c hc
                  simp only [List.mem_singleton] at hc
                  subst hc
                  simp only [bookOfSave, bookCountersOkB, buildDataToSave,
                    decide_eq_true_eq]
                  omega
              · simp at h

/-- Witness for C5 on the one-book store with two of three copies
available. -/
theorem c5_counter_bounds_preserved_witness :
    storeQuantsNonnegB stW4.books = true ∧
      storeCountersOkB stW4.books = true ∧
      (stW4.books.map Book.key).Nodup ∧
      ((∀ cpfValid now inp newId st1 r,
          createLoan cpfValid now stW4 inp newId = .ok (st1, r) →
          storeCountersOkB st1.books = true) ∧
        (∀ now loanId st1, returnBook now stW4 loanId = .ok st1 →
          storeCountersOkB st1.books = true) ∧
        (∀ now isbn0 quantity details store1 saved,
          adminAddBook now stW4.books isbn0 quantity details =
            some (store1, saved) →
          storeCountersOkB store1 = true)) :=
  ⟨by decide, by decide, by decide,
    c5_counter_bounds_preserved stW4 (by decide) (by decide) (by decide)⟩

/-! ## Counting lemmas for active loans -/

theorem activeLoanCount_cons (x : LoanRec) (ls : List LoanRec) (k : String) :
    activeLoanCount (x :: ls) k =
      activeLoanCount ls k +
        (if x.bookKey = k ∧ x.status = LoanStatus.active then 1 else 0) := by
  by_cases hx : x.bookKey = k ∧ x.status = LoanStatus.active <;>
    simp [activeLoanCount, List.filter_cons, hx]

theorem activeLoanCount_pos (ls : List LoanRec) (l : LoanRec) (hl : l ∈ ls)
    (hact : l.status = LoanStatus.active) :
    1 ≤ activeLoanCount ls l.bookKey := by
  have hmem : l ∈ ls.filter
      (fun x => decide (x.bookKey = l.bookKey ∧ x.status = LoanStatus.active)) :=
    List.mem_filter.mpr ⟨hl, by simp [hact]⟩
  exact List.length_pos_of_mem hmem

theorem map_return_of_no_id (ls : List LoanRec) (lid : String) (rd : Int)
    (h : ∀ x ∈ ls, ¬ x.id = lid) :
    ls.map (fun x => if x.id = lid then
      { x with status := LoanStatus.returned, returnDate := some rd }
      else x) = ls := by
  induction ls with
  | nil => simp
  | cons y ys ih =>
    rw [List.map_cons, if_neg (h y (List.mem_cons_self y ys)),
      ih (fun x hx => h x (List.mem_cons_of_mem y hx))]

theorem activeLoanCount_return (ls : List LoanRec) (lid : String) (rd : Int)
    (l : LoanRec) (k : String)
    (hnd : (ls.map LoanRec.id).Nodup)
    (hl : ls.find? (fun x => x.id = lid) = some l)
    (hact : l.status = LoanStatus.active) :
    activeLoanCount (ls.map (fun x => if x.id = lid then
      { x with status := LoanStatus.returned, returnDate := some rd }
      else x)) k + (if l.bookKey = k then 1 else 0) = activeLoanCount ls k := by
  induction ls with
  | nil => simp at hl
  | cons y ys ih =>
    rw [List.map_cons] at hnd
    rw [List.nodup_cons] at hnd
    obtain ⟨hy_not, hnd'⟩ := hnd
    by_cases hy : y.id = lid
    · have hly : l = y := by
        rw [List.find?_cons_of_pos _ (by simp [hy])] at hl
        exact (Option.some.injEq _ _ ▸ hl.symm)
      subst hly
      have hys : ∀ x ∈ ys, ¬ x.id = lid := by
        intro x hx hxid
        exact hy_not (by
          rw [← hy] at hxid
          exact hxid ▸ List.mem_map_of_mem LoanRec.id hx)
      rw [List.map_cons, if_pos hy, map_return_of_no_id ys lid rd hys,
        activeLoanCount_cons, activeLoanCount_cons]
      by_cases hk : l.bookKey = k <;> simp [hk, hact]
    · have hl' : ys.find? (fun x => x.id = lid) = some l := by
        rw [List.find?_cons_of_neg _ (by simp [hy])] at hl
        exact hl
      rw [List.map_cons, if_neg hy, activeLoanCount_cons, activeLoanCount_cons]
      have := ih hnd' hl'
      omega

/-! ## The boolean invariant in propositional form -/

theorem invariantB_eq_true_iff (st : State) :
    invariantB st = true ↔ InvProp st := by
  rw [invariantB, Bool.and_eq_true, wellFormedB, Bool.and_eq_true,
    Bool.and_eq_true, Bool.and_eq_true, InvProp]
  constructor
  · rintro ⟨⟨⟨⟨h1, h2⟩, h3⟩, h4⟩, h5⟩
    refine ⟨by simpa using h1, by simpa using h2, ?_, ?_, ?_⟩
    · intro b hb
      have := List.all_eq_true.mp h3 b hb
      simpa using this
    · intro l hl hact
      have := List.all_eq_true.mp h4 l hl
      rw [Bool.or_eq_true] at this
      rcases this with hfalse | hmatch
      · rw [Bool.not_eq_true', decide_eq_false_iff_not] at hfalse
        exact absurd hact hfalse
      · cases hfb : findBook st l.bookKey with
        | none => rw [hfb] at hmatch; simp at hmatch
        | some b =>
          rw [hfb] at hmatch
          rw [Bool.and_eq_true] at hmatch
          exact ⟨b, rfl, hmatch.1, hmatch.2⟩
    · intro b hb q a hq ha
      have := List.all_eq_true.mp h5 b hb
      rw [hq, ha] at this
      simpa using this
  · rintro ⟨h1, h2, h3, h4, h5⟩
    refine ⟨⟨⟨⟨by simpa using h1, by simpa using h2⟩, ?_⟩, ?_⟩, ?_⟩
    · rw [List.all_eq_true]
      intro b hb
      simpa using h3 b hb
    · rw [List.all_eq_true]
      intro l hl
      by_cases hact : l.status = LoanStatus.active
      · obtain ⟨b, hfb, hq, ha⟩ := h4 l hl hact
        rw [Bool.or_eq_true]
        right
        rw [hfb, Bool.and_eq_true]
        exact ⟨hq, ha⟩
      · rw [Bool.or_eq_true]
        left
        simp [hact]
    · rw [relEqB, List.all_eq_true]
      intro b hb
      cases hq : b.quantity with
      | none => simp
      | some q =>
        cases ha : b.availableQuantity with
        | none => simp
        | some a =>
          simp only [decide_eq_true_eq]
          exact h5 b hb q a hq ha

/-! ## Preservation of the inductive invariant -/

theorem find?_books_map_update (books : List Book) (tkey : String) (v : Int)
    (k : String) :
    (books.map (fun bb => if bb.key = tkey then
      { bb with availableQuantity := some v } else bb)).find?
        (fun bb => bb.key = k) =
      (books.find? (fun bb => bb.key = k)).map (fun bb =>
        if bb.key = tkey then { bb with availableQuantity := some v }
        else bb) := by
  apply find?_map_self
  intro x
  by_cases hx : x.key = tkey <;> simp [hx]

theorem books_map_update_keys (books : List Book) (tkey : String) (v : Int) :
    (books.map (fun bb => if bb.key = tkey then
      { bb with availableQuantity := some v } else bb)).map Book.key =
      books.map Book.key := by
  rw [List.map_map]
  exact List.map_congr_left fun c _ => by
    by_cases hc : c.key = tkey <;> simp [hc]

theorem step_preserves_InvProp (st st' : State) (hstep : Step st st')
    (hinv : InvProp st) : InvProp st' := by
  obtain ⟨hndk, hndi, hdef, hback, hrel⟩ := hinv
  cases hstep with
  | create cpfValid now inp newId st2 st2' r hfresh hok =>
    obtain ⟨b, a, hb, ha, hapos, -, rfl⟩ :=
      createLoan_ok_cases cpfValid now st inp newId st' r hok
    have hb' : st.books.find? (fun bb => bb.key = inp.bookKey) = some b := hb
    have hbmem : b ∈ st.books := List.mem_of_find?_eq_some hb'
    have hbkey : b.key = inp.bookKey := by
      have := List.find?_some hb'
      simpa using this
    have hbq : b.quantity.isSome = true := by
      have := hdef b hbmem
      rw [ha] at this
      simpa using this
    refine ⟨?_, ?_, ?_, ?_, ?_⟩
    · show ((st.books.map _).map Book.key).Nodup
      rw [books_map_update_keys]
      exact hndk
    · show ((newLoanOf inp now newId :: st.loans).map LoanRec.id).Nodup
      rw [List.map_cons, List.nodup_cons]
      refine ⟨?_, hndi⟩
      intro hmem
      obtain ⟨x, hx, hxid⟩ := List.mem_map.mp hmem
      exact hfresh x hx hxid
    · intro b2 hb2
      obtain ⟨c, hc, rfl⟩ := List.mem_map.mp hb2
      by_cases hck : c.key = inp.bookKey
      · have hcb : c = b := find?_key_unique st.books inp.bookKey b hndk hb' c hc hck
        subst hcb
        simp only [hck, if_true]
        simpa using hbq
      · simp only [hck, if_false]
        exact hdef c hc
    · intro l2 hl2 hact
      rcases List.mem_cons.mp hl2 with rfl | hl2
      · refine ⟨{ b with availableQuantity := some (a - 1) }, ?_, by simpa using hbq, rfl⟩
        unfold findBook
        dsimp only [newLoanOf]
        rw [find?_books_map_update, hb']
        simp [hbkey]
      · obtain ⟨c, hfc, hcq, hca⟩ := hback l2 hl2 hact
        have hfc' : st.books.find? (fun bb => bb.key = l2.bookKey) = some c := hfc
        refine ⟨if c.key = inp.bookKey then { c with availableQuantity := some (a - 1) } else c, ?_, ?_, ?_⟩
        · unfold findBook
          dsimp only
          rw [find?_books_map_update, hfc']
          rfl
        · by_cases hck : c.key = inp.bookKey <;> simp [hck, hcq]
        · by_cases hck : c.key = inp.bookKey <;> simp [hck, hca]
    · intro b2 hb2 q2 a2 hq2 ha2
      obtain ⟨c, hc, rfl⟩ := List.mem_map.mp hb2
      have hkeq : (if c.key = inp.bookKey then { c with availableQuantity := some (a - 1) } else c).key = c.key := by
        by_cases hck : c.key = inp.bookKey <;> simp [hck]
      rw [hkeq, activeLoanCount_cons]
      by_cases hck : c.key = inp.bookKey
      · have hcb : c = b := find?_key_unique st.books inp.bookKey b hndk hb' c hc hck
        subst hcb
        rw [if_pos hck] at hq2 ha2
        have hq2' : c.quantity = some q2 := hq2
        have ha2' : a - 1 = a2 := by
          have h' : some (a - 1) = some a2 := ha2
          simpa using h'
        have hind : (if (newLoanOf inp now newId).bookKey = c.key ∧
            (newLoanOf inp now newId).status = LoanStatus.active then 1 else 0) = 1 := by
          simp [newLoanOf, hck]
        rw [hind]
        have hmain := hrel c hc q2 a hq2' ha
        push_cast
        push_cast at hmain
        omega
      · rw [if_neg hck] at hq2 ha2
        have hind : (if (newLoanOf inp now newId).bookKey = c.key ∧
            (newLoanOf inp now newId).status = LoanStatus.active then 1 else 0) = 0 := by
          simp [newLoanOf]
          intro hcon
          exact absurd hcon.symm hck
        rw [hind]
        have hmain := hrel c hc q2 a2 hq2 ha2
        omega
  | ret now loanId st2 st2' hok =>
    obtain ⟨hid, hcase⟩ := returnBook_ok_cases now st loanId st' hok
    rcases hcase with ⟨l, hl, hret, rfl⟩ | ⟨l, b, hl, hact, hb, rfl⟩
    · exact ⟨hndk, hndi, hdef, hback, hrel⟩
    · have hl' : st.loans.find? (fun x => x.id = loanId) = some l := hl
      have hlmem : l ∈ st.loans := List.mem_of_find?_eq_some hl'
      have hb' : st.books.find? (fun bb => bb.key = l.bookKey) = some b := hb
      have hbmem : b ∈ st.books := List.mem_of_find?_eq_some hb'
      have hbkey : b.key = l.bookKey := by
        have := List.find?_some hb'
        simpa using this
      obtain ⟨c, hfc, hcq, hca⟩ := hback l hlmem hact
      have hcb : c = b := by
        have : some c = some b := by rw [← hfc, hb]
        simpa using this
      subst hcb
      obtain ⟨q, hq⟩ := Option.isSome_iff_exists.mp hcq
      obtain ⟨a, ha⟩ := Option.isSome_iff_exists.mp hca
      have hcount := hrel c hbmem q a hq ha
      have hcpos : 1 ≤ activeLoanCount st.loans l.bookKey := by
        have := activeLoanCount_pos st.loans l hlmem hact
        exact this
      have hcpos2 : 1 ≤ activeLoanCount st.loans c.key := by
        rw [hbkey]
        exact hcpos
      have hclamp : min (c.availableQuantity.getD 0 + 1)
          (c.quantity.getD (c.availableQuantity.getD 0 + 1)) = a + 1 := by
        rw [ha, hq]
        simp only [Option.getD_some]
        have hle : a + 1 ≤ q := by omega
        exact min_eq_left hle
      rw [hclamp]
      refine ⟨?_, ?_, ?_, ?_, ?_⟩
      · show ((st.books.map _).map Book.key).Nodup
        rw [books_map_update_keys]
        exact hndk
      · show ((st.loans.map _).map LoanRec.id).Nodup
        rw [List.map_map]
        have : (st.loans.map (LoanRec.id ∘ fun x => if x.id = loanId then
            { x with status := LoanStatus.returned, returnDate := some now }
            else x)) = st.loans.map LoanRec.id := by
          exact List.map_congr_left fun x _ => by
            by_cases hx : x.id = loanId <;> simp [hx]
        rw [this]
        exact hndi
      · intro b2 hb2
        obtain ⟨d, hd, rfl⟩ := List.mem_map.mp hb2
        by_cases hdk : d.key = l.bookKey
        · have hdb : d = c := find?_key_unique st.books l.bookKey c hndk hb' d hd hdk
          subst hdb
          simp only [hdk, if_true]
          simpa using hcq
        · simp only [hdk, if_false]
          exact hdef d hd
      · intro l2 hl2 hact2
        obtain ⟨x, hx, rfl⟩ := List.mem_map.mp hl2
        by_cases hxid : x.id = loanId
        · rw [if_pos hxid] at hact2
          simp at hact2
        · rw [if_neg hxid] at hact2 ⊢
          obtain ⟨d, hfd, hdq, hda⟩ := hback x hx hact2
          have hfd' : st.books.find? (fun bb => bb.key = x.bookKey) = some d := hfd
          refine ⟨if d.key = l.bookKey then { d with availableQuantity := some (a + 1) } else d, ?_, ?_, ?_⟩
          · unfold findBook
            dsimp only
            rw [find?_books_map_update, hfd']
            rfl
          · by_cases hdk : d.key = l.bookKey <;> simp [hdk, hdq]
          · by_cases hdk : d.key = l.bookKey <;> simp [hdk, hda]
      · intro b2 hb2 q2 a2 hq2 ha2
        obtain ⟨d, hd, rfl⟩ := List.mem_map.mp hb2
        have hkeq : (if d.key = l.bookKey then { d with availableQuantity := some (a + 1) } else d).key = d.key := by
          by_cases hdk : d.key = l.bookKey <;> simp [hdk]
        dsimp only
        rw [hkeq]
        have hcnt := activeLoanCount_return st.loans loanId now l d.key hndi hl' hact
        by_cases hdk : d.key = l.bookKey
        · have hdb : d = c := find?_key_unique st.books l.bookKey c hndk hb' d hd hdk
          subst hdb
          rw [if_pos hdk] at hq2 ha2
          have hq2' : d.quantity = some q2 := hq2
          have ha2' : a + 1 = a2 := by
            have h' : some (a + 1) = some a2 := ha2
            simpa using h'
          rw [if_pos hdk.symm] at hcnt
          have hq2q : q2 = q := by
            rw [hq] at hq2'
            simpa using hq2'.symm
          have hmain : q - a = (activeLoanCount st.loans d.key : Int) := hcount
          push_cast at hcnt hmain ⊢
          omega
        · rw [if_neg hdk] at hq2 ha2
          rw [if_neg (fun hcon => hdk hcon.symm)] at hcnt
          have hmain := hrel d hd q2 a2 hq2 ha2
          omega

/-! ## Claim C1 -/

/-- C1: along every state reachable by committed `createLoan` and
`returnBook` transactions from a well-formed initial store, every book
with both counters defined satisfies
`quantity - availableQuantity = number of active loans referencing it`,
and every further committed transaction preserves this equality. -/
theorem c1_relationship_invariant (st0 st : State)
    (h0 : invariantB st0 = true) (hr : Reach st0 st) :
    relEq st ∧ ∀ st', Step st st' → relEq st' := by
  have hinv : InvProp st := by
    induction hr with
    | refl => exact (invariantB_eq_true_iff st0).mp h0
    | tail t u h hstep ih => exact step_preserves_InvProp t u hstep ih
  exact ⟨hinv.2.2.2.2,
    fun st' hs => (step_preserves_InvProp st st' hs hinv).2.2.2.2⟩

/-- Witness for C1 at the empty store. -/
theorem c1_relationship_invariant_witness :
    invariantB stEmpty = true ∧
      (relEq stEmpty ∧ ∀ st', Step stEmpty st' → relEq st') :=
  ⟨by decide,
    c1_relationship_invariant stEmpty stEmpty (by decide) (Reach.refl stEmpty)⟩

/-! ## Claim C9 -/

/-- C9 counterexample: the search matches the title only as a
case-sensitive prefix (not an unanchored case-insensitive substring),
matches ISBNs only exactly (not by substring), and does not order the
results by title ascending: a book matched via its ISBN is appended after
the title matches even when its title sorts first. -/
theorem c9_counterexample :
    strIncludes (jsToLower hpBook.title) (jsToLower "Potter") = true ∧
      searchLibraryBooks [hpBook] "Potter" 10 false = [] ∧
      strIncludes "9781234567890" "4567" = true ∧
      searchLibraryBooks [isbnBook] "4567" 10 false = [] ∧
      strLe appleBook.title zebraBook.title = true ∧
      (searchLibraryBooks [zebraBook, appleBook] "Z" 10 false).map Book.title =
        ["Zebra", "Apple"] := by
  refine ⟨by decide, by decide, by decide, by decide, by decide, by decide⟩

/-- C9 amended: when the store has unique keys and the limit is at least
twice the store size (so no truncation occurs), the search returns a book
exactly when it is stored and either lies in the case-sensitive title
range of the text with its lowercased title starting with the lowercased
text, or its ISBN list contains the text exactly; with the availability
filter on, only books with a defined positive `availableQuantity` are
returned.  The search reads the store and returns a value: it has no side
effects by construction. -/
theorem c9_amended_search_membership (store : List Book)
    (searchText : String) (searchLimit : Nat) (filterByAvailability : Bool)
    (htext : ¬ jsTrim searchText = "")
    (hnd : (store.map Book.key).Nodup)
    (hlim : 2 * store.length ≤ searchLimit) :
    ∀ b, b ∈ searchLibraryBooks store searchText searchLimit
        filterByAvailability ↔
      b ∈ store ∧
        ((titleInRange searchText b = true ∧
            strStarts (jsToLower b.title) (jsToLower searchText) = true) ∨
          b.isbn.contains searchText = true) ∧
        (filterByAvailability = true → availOk b = true) := by
  intro b
  have hless : store.length ≤ searchLimit := by omega
  have hkeyuniq : ∀ x ∈ store, ∀ y ∈ store, x.key = y.key → x = y :=
    fun x hx y hy hxy => List.inj_on_of_nodup_map hnd hx hy hxy
  unfold searchLibraryBooks
  rw [if_neg htext]
  dsimp only
  have htake1 : (sortByLe titleThenKeyLe (store.filter (fun bb =>
      titleInRange searchText bb &&
        (!filterByAvailability || availOk bb)))).take searchLimit =
      sortByLe titleThenKeyLe (store.filter (fun bb =>
      titleInRange searchText bb &&
        (!filterByAvailability || availOk bb))) := by
    apply List.take_of_length_le
    rw [length_sortByLe]
    exact le_trans (List.length_filter_le _ _) hless
  have htake2 : (sortByLe keyLe (store.filter (fun bb =>
      bb.isbn.contains searchText &&
        (!filterByAvailability || availOk bb)))).take searchLimit =
      sortByLe keyLe (store.filter (fun bb =>
      bb.isbn.contains searchText &&
        (!filterByAvailability || availOk bb))) := by
    apply List.take_of_length_le
    rw [length_sortByLe]
    exact le_trans (List.length_filter_le _ _) hless
  rw [htake1, htake2]
  have htake3 : ∀ l1 l2 : List Book, l1.length ≤ store.length →
      l2.length ≤ store.length → (l1 ++ l2).take searchLimit = l1 ++ l2 := by
    intro l1 l2 h1 h2
    apply List.take_of_length_le
    rw [List.length_append]
    omega
  rw [htake3 _ _
    (le_trans (List.length_filter_le _ _)
      (le_of_eq_of_le (length_sortByLe _ _) (List.length_filter_le _ _)))
    (le_trans (List.length_filter_le _ _)
      (le_of_eq_of_le (length_sortByLe _ _) (List.length_filter_le _ _)))]
  rw [List.mem_append, List.mem_filter, List.mem_filter, mem_sortByLe,
    mem_sortByLe, List.mem_filter, List.mem_filter]
  constructor
  · rintro (⟨⟨hmem, hpT⟩, hpC⟩ | ⟨⟨hmem, hpI⟩, hnotany⟩)
    · rw [Bool.and_eq_true] at hpT
      refine ⟨hmem, Or.inl ⟨hpT.1, hpC⟩, ?_⟩
      intro hfilt
      have := hpT.2
      rw [hfilt] at this
      simpa using this
    · rw [Bool.and_eq_true] at hpI
      refine ⟨hmem, Or.inr hpI.1, ?_⟩
      intro hfilt
      have := hpI.2
      rw [hfilt] at this
      simpa using this
  · rintro ⟨hmem, hcond, hav⟩
    have havb : (!filterByAvailability || availOk b) = true := by
      cases hfilt : filterByAvailability
      · simp
      · simp [hav hfilt]
    rcases hcond with ⟨hrange, hstarts⟩ | hisbn
    · exact Or.inl ⟨⟨hmem, by rw [Bool.and_eq_true]; exact ⟨hrange, havb⟩⟩, hstarts⟩
    · have hbI : b ∈ store ∧ (b.isbn.contains searchText &&
          (!filterByAvailability || availOk b)) = true :=
        ⟨hmem, by rw [Bool.and_eq_true]; exact ⟨hisbn, havb⟩⟩
      by_cases hany : ((sortByLe titleThenKeyLe (store.filter (fun bb =>
          titleInRange searchText bb &&
            (!filterByAvailability || availOk bb)))).filter (fun bb =>
          strStarts (jsToLower bb.title) (jsToLower searchText))).any
          (fun c => c.key = b.key) = true
      · obtain ⟨c, hcTC, hck⟩ := List.any_eq_true.mp hany
        obtain ⟨hcT0, hcpC⟩ := List.mem_filter.mp hcTC
        obtain ⟨hcstore, hcpT⟩ :=
          List.mem_filter.mp ((mem_sortByLe _ _ _).mp hcT0)
        have hceq : c = b := hkeyuniq c hcstore b hmem (by simpa using hck)
        subst hceq
        rw [Bool.and_eq_true] at hcpT
        exact Or.inl ⟨⟨hcstore, by rw [Bool.and_eq_true]; exact hcpT⟩, hcpC⟩
      · refine Or.inr ⟨hbI, ?_⟩
        simpa using hany

/-- Witness for the amended C9 on a two-book store with distinct keys. -/
theorem c9_amended_search_membership_witness :
    ¬ jsTrim "Z" = "" ∧
      ([zebraBook, appleBook].map Book.key).Nodup ∧
      2 * ([zebraBook, appleBook] : List Book).length ≤ 10 ∧
      (∀ b, b ∈ searchLibraryBooks [zebraBook, appleBook] "Z" 10 false ↔
        b ∈ [zebraBook, appleBook] ∧
          ((titleInRange "Z" b = true ∧
              strStarts (jsToLower b.title) (jsToLower "Z") = true) ∨
            b.isbn.contains "Z" = true) ∧
          (false = true → availOk b = true)) :=
  ⟨by decide, by decide, by decide,
    c9_amended_search_membership [zebraBook, appleBook] "Z" 10 false
      (by decide) (by decide) (by decide)⟩

end Biblioteca
